import Mathlib

/-!
# Verification of the splash camera / window core

Shallow embedding of the calibration, blending and swap-coordination code of
the splash video-mapping engine (files `src/unnamed/part_001`, `part_002`),
together with proofs about the properties stated in the specification.

Conventions:
* machine `unsigned short` arithmetic is modelled as `Nat` with explicit
  `% 65536`;
* C `int` arithmetic that can go negative is modelled as `Int`, with
  truncated division `Int.tdiv` (the semantics of C integer division);
* `double` arithmetic is modelled over `ℝ`.
-/

namespace Splash

/-! ## Window swap coordination (`part_001`, `Window::render` l.375-377 and
`Window::swapBuffers` l.482-517)

`Window::_swappableWindowsCount` is a process-wide `atomic_int` (declared at
`part_001` l.76).  `Window::render` ends with `_swappableWindowsCount = 0`
(l.377).  `Window::swapBuffers` performs
`auto windowIndex = _swappableWindowsCount.fetch_add(1)` (l.491) and then, on
the non-OSX path, draws to `GL_FRONT` when `windowIndex != 0` and to `GL_BACK`
when `windowIndex == 0` (l.498-501), and calls `glfwSwapBuffers` exactly when
`windowIndex == 0` (l.512-513). -/

/-- An event of a frame group: a window (identified by a `Nat`) executing
`Window::render`, or executing `Window::swapBuffers`. -/
inductive WindowEvent where
  | render (window : Nat)
  | swap (window : Nat)
deriving DecidableEq, Repr

/-- The observable effect of one `Window::swapBuffers` call: which window ran
it, the pre-increment value of `_swappableWindowsCount` it observed, whether it
blitted to the back buffer (`GL_BACK`, l.501) rather than the front buffer
(`GL_FRONT`, l.499), and whether it called `glfwSwapBuffers` (l.512-513). -/
structure SwapRecord where
  window : Nat
  observed : Nat
  blitToBack : Bool
  presented : Bool
deriving DecidableEq, Repr

/-- One step of the shared-counter semantics: `render` resets the counter to
`0` (`part_001` l.377); `swap` atomically reads the counter, increments it,
and acts on the pre-increment value (`part_001` l.491-513, non-OSX path). -/
def windowStep (counter : Nat) : WindowEvent → Nat × Option SwapRecord
  | .render _ => (0, none)
  | .swap w =>
      let windowIndex := counter
      (counter + 1,
       some { window := w
              observed := windowIndex
              blitToBack := windowIndex = 0
              presented := windowIndex = 0 })

/-- Run a list of window events from a given counter value, collecting the
swap records in order. -/
def runWindowEvents (counter : Nat) : List WindowEvent → Nat × List SwapRecord
  | [] => (counter, [])
  | e :: rest =>
      let step := windowStep counter e
      let next := runWindowEvents step.1 rest
      (next.1, match step.2 with
               | none => next.2
               | some r => r :: next.2)

/-- The swap records produced by running `events` from counter value
`counter`. -/
def swapRecords (counter : Nat) (events : List WindowEvent) : List SwapRecord :=
  (runWindowEvents counter events).2

/-! ## Blending map (`part_002`, `Camera::computeBlendingMap` l.417-586)

The per-camera weight map `camMap` is a `vector<unsigned short>` and the
companion `isSet` a `vector<bool>`, both of size `width * height`, addressed
row-major as `y * width + x` (l.492-529).  A row of that map is modelled as a
pair of functions `set : Nat → Bool` (the `isSet` vector) and
`cam : Nat → Nat` (the `camMap` values, all `< 65536`). -/

/-- The value written into a hole cell (`part_002` l.575-576):
`unsigned short step = ((int)nextFilledPixel - (int)lastFilledPixel)
 * (int)(x - holeStart) / (int)(holeEnd - holeStart);`
(C `int` arithmetic with truncated division, then conversion to
`unsigned short`, i.e. reduction mod 2^16), followed by
`unsigned short pixelValue = lastFilledPixel + step;` (again mod 2^16). -/
def fillValue (last next dx dz : Nat) : Nat :=
  let step : Nat :=
    (Int.emod (Int.tdiv (((next : Int) - (last : Int)) * (dx : Int)) (dz : Int)) 65536).toNat
  (last + step) % 65536

/-- The inner scan of the hole-filling pass (`part_002` l.556-564): starting
at cell `xx`, walk to the end of the row; every time a set cell is found,
overwrite `nextFilledPixel`/`holeEnd` and raise `hole`.  There is no `break`,
so the values retained are those of the *last* set cell of the row segment
`[xx, W)`; if no set cell is found the incoming `next`/`he`/`hole` values are
kept.  `fuel` counts the remaining cells, `W - xx`. -/
def scanLastSet (set : Nat → Bool) (cam : Nat → Nat) :
    Nat → Nat → Nat → Nat → Bool → Nat × Nat × Bool
  | 0, _, next, he, hole => (next, he, hole)
  | fuel + 1, xx, next, he, hole =>
      if set xx then scanLastSet set cam fuel (xx + 1) (cam xx) xx true
      else scanLastSet set cam fuel (xx + 1) next he hole

/-- The hole-filling row scan (`part_002` l.533-580), as a step function on
the loop state: current cell `x`, the `hole` flag, the locals
`lastFilledPixel` (`last`), `nextFilledPixel` (`next`), `holeStart` (`hs`),
`holeEnd` (`he`), and the row being written (`out`, initially the row itself).
The four branches are, in source order:
* `x` unset, no hole: skip (l.544-545);
* `x` set, no hole: if the next cell is also set, skip (l.550-551); otherwise
  record `lastFilledPixel`/`holeStart` and scan for the hole end
  (l.554-564);
* `x` set, in a hole: close the hole and re-visit `x` (`x -= 1` then `++x`,
  l.567-572), modelled as a step that keeps `x` and clears `hole`;
* `x` unset, in a hole: write the interpolated value and mark the cell set
  (l.575-578).

The C loop only ever *reads* `camMap`/`isSet` at indices `≥ x`, and only ever
*writes* them at the current (originally unset) index `x`, so reads can be
taken from the original row: only the output accumulator `out` is threaded.
`fuel` bounds the remaining steps; `2 * (W - x) + 1` always suffices since
each step either advances `x` or clears `hole`. -/
def fillHolesAux (set : Nat → Bool) (cam : Nat → Nat) (W : Nat) :
    Nat → Nat → Bool → Nat → Nat → Nat → Nat → (Nat → Nat) → (Nat → Nat)
  | 0, _, _, _, _, _, _, out => out
  | fuel + 1, x, hole, last, next, hs, he, out =>
      if x < W then
        match set x, hole with
        | false, false =>
            fillHolesAux set cam W fuel (x + 1) false last next hs he out
        | true, false =>
            if x < W - 1 && set (x + 1) then
              fillHolesAux set cam W fuel (x + 1) false last next hs he out
            else
              let scanned := scanLastSet set cam (W - (x + 2)) (x + 2) next he false
              fillHolesAux set cam W fuel (x + 1) scanned.2.2 (cam x) scanned.1 x
                scanned.2.1 out
        | true, true =>
            fillHolesAux set cam W fuel x false last next hs he out
        | false, true =>
            let v := fillValue last next (x - hs) (he - hs)
            fillHolesAux set cam W fuel (x + 1) true last next hs he
              (fun i => if i = x then v else out i)
      else out

/-- The hole-filling pass on one row of width `W` (`part_002` l.533-580): all
locals start at `0`, `hole` at `false`, and the output is the row itself. -/
def fillHolesRow (set : Nat → Bool) (cam : Nat → Nat) (W : Nat) : Nat → Nat :=
  fillHolesAux set cam W (2 * W + 1) 0 false 0 0 0 0 cam

/-- Declarative description of what the hole-filling pass computes on a row
(proved equal to `fillHolesRow` below): a set cell keeps its value; an unset
cell with a set cell somewhere before it *and* somewhere after it (within the
row) is interpolated between the value of the nearest set cell before it
(`Nat.findGreatest _ (x-1)`) and the value of the *last* set cell of the
entire row (`Nat.findGreatest _ (W-1)`), proportionally to the distance from
the former; any other unset cell keeps its value. -/
def fillRowSpec (set : Nat → Bool) (cam : Nat → Nat) (W x : Nat) : Nat :=
  if set x then cam x
  else if (List.range x).any (fun j => set j)
          && (List.range W).any (fun j => decide (x < j) && set j) then
    let p := Nat.findGreatest (fun j => set j = true) (x - 1)
    let q := Nat.findGreatest (fun j => set j = true) (W - 1)
    fillValue (cam p) (cam q) (x - p) (q - p)
  else cam x

/-- The accumulation of a camera's filled map into the shared map
(`part_002` l.582-585):
`for y < height: for x < width: imageMap[y + width * x] += camMap[y + width * x]`
— an `unsigned short` addition.  Note the index expression `y + width * x` on
both sides, while every other access in `Camera::computeBlendingMap`
addresses cell (row `y`, column `x`) as `y * width + x`.  Maps are modelled
as total functions `Nat → Nat` (the C code can read and write out of bounds
here; those accesses become reads/writes at indices `≥ W * H`). -/
def accumulateBlendingMap (W H : Nat) (cam img : Nat → Nat) : Nat → Nat :=
  ((List.range H).flatMap fun y => (List.range W).map fun x => (y, x)).foldl
    (fun m p => fun i => if i = p.1 + W * p.2 then (m i + cam i) % 65536 else m i) img

/-- Reading of the hole-filling sentence of the specification, with
`nextKnown`/`holeEnd` taken from the *bracketing* set cell, i.e. the nearest
set cell after `x` (`(List.range W).filter ... |>.head?`, the least set index
`> x`), rather than from the last set cell of the row.  This is the
interpolation the claim describes; it is compared with what the code
(`fillHolesRow`) actually computes. -/
def bracketFillRowSpec (set : Nat → Bool) (cam : Nat → Nat) (W x : Nat) : Nat :=
  if set x then cam x
  else if (List.range x).any (fun j => set j)
          && (List.range W).any (fun j => decide (x < j) && set j) then
    let p := Nat.findGreatest (fun j => set j = true) (x - 1)
    let q := (((List.range W).filter (fun j => decide (x < j) && set j)).head?).getD 0
    fillValue (cam p) (cam q) (x - p) (q - p)
  else cam x

/-- Example row of the specification: width 10, set cells exactly at positions
0 and 9. -/
def rampSet : Nat → Bool := fun x => decide (x = 0) || decide (x = 9)

/-- Example row values: 100 at position 0, 200 at position 9, 0 elsewhere. -/
def rampCam : Nat → Nat := fun x => if x = 0 then 100 else if x = 9 then 200 else 0

/-- Row with three set cells, used to separate the bracketing-cell reading of
the specification from the code: width 10, set cells at 0, 5 and 9 holding
100, 50 and 200. -/
def threeSet : Nat → Bool := fun x => decide (x = 0) || decide (x = 5) || decide (x = 9)

/-- Values of the three-set-cell row. -/
def threeCam : Nat → Nat :=
  fun x => if x = 0 then 100 else if x = 5 then 50 else if x = 9 then 200 else 0

/-! ## Geometry over ℝ (the glm constructions used by `Camera`)

The `double`-precision glm vectors and matrices are modelled over `ℝ`.
Matrices are stored the way glm stores them, column-major: `Mat4` keeps its
four columns, each a `Vec4`, so glm's `m[c][r]` is column `c`, row `r`.  The
definitions are straight transcriptions of the glm functions the camera code
calls (`lookAt`, `frustum`, `yawPitchRoll`, `project`, `normalize`, `cross`,
`dot`).  Comparisons and equality tests on `ℝ` use classical decidability,
mirroring exact `double` comparisons. -/

noncomputable section

open scoped Classical

/-- glm `dvec2`. -/
@[ext]
structure Vec2 where
  x : ℝ
  y : ℝ

/-- glm `dvec3`. -/
@[ext]
structure Vec3 where
  x : ℝ
  y : ℝ
  z : ℝ

/-- glm `dvec4`. -/
@[ext]
structure Vec4 where
  x : ℝ
  y : ℝ
  z : ℝ
  w : ℝ

/-- glm `dmat4`, column-major: `cN` is column `N`. -/
structure Mat4 where
  c0 : Vec4
  c1 : Vec4
  c2 : Vec4
  c3 : Vec4

/-- glm `dot` on 3-vectors. -/
def dot3 (a b : Vec3) : ℝ := a.x * b.x + a.y * b.y + a.z * b.z

/-- glm `cross`. -/
def cross3 (a b : Vec3) : Vec3 :=
  ⟨a.y * b.z - b.y * a.z, a.z * b.x - b.z * a.x, a.x * b.y - b.x * a.y⟩

/-- Componentwise difference of 3-vectors. -/
def sub3 (a b : Vec3) : Vec3 := ⟨a.x - b.x, a.y - b.y, a.z - b.z⟩

/-- glm `length`. -/
def length3 (a : Vec3) : ℝ := Real.sqrt (dot3 a a)

/-- glm `normalize`: the vector divided by its length. -/
def normalize3 (a : Vec3) : Vec3 :=
  ⟨a.x / length3 a, a.y / length3 a, a.z / length3 a⟩

/-- Matrix–vector product `M * v` (glm column-major convention). -/
def mulVec (m : Mat4) (v : Vec4) : Vec4 :=
  ⟨m.c0.x * v.x + m.c1.x * v.y + m.c2.x * v.z + m.c3.x * v.w,
   m.c0.y * v.x + m.c1.y * v.y + m.c2.y * v.z + m.c3.y * v.w,
   m.c0.z * v.x + m.c1.z * v.y + m.c2.z * v.z + m.c3.z * v.w,
   m.c0.w * v.x + m.c1.w * v.y + m.c2.w * v.z + m.c3.w * v.w⟩

/-- glm `lookAt` (right-handed): forward `f = normalize(center - eye)`,
side `s = normalize(cross(f, up))`, corrected up `u = cross(s, f)`, with the
translation column `(-dot(s,eye), -dot(u,eye), dot(f,eye), 1)`. -/
def lookAtM (eye center up : Vec3) : Mat4 :=
  let f := normalize3 (sub3 center eye)
  let s := normalize3 (cross3 f up)
  let u := cross3 s f
  { c0 := ⟨s.x, u.x, -f.x, 0⟩
    c1 := ⟨s.y, u.y, -f.y, 0⟩
    c2 := ⟨s.z, u.z, -f.z, 0⟩
    c3 := ⟨-(dot3 s eye), -(dot3 u eye), dot3 f eye, 1⟩ }

/-- glm `frustum` (right-handed, clip depth `[-1, 1]`). -/
def frustumM (l r b t n f : ℝ) : Mat4 :=
  { c0 := ⟨2 * n / (r - l), 0, 0, 0⟩
    c1 := ⟨0, 2 * n / (t - b), 0, 0⟩
    c2 := ⟨(r + l) / (r - l), (t + b) / (t - b), -(f + n) / (f - n), -1⟩
    c3 := ⟨0, 0, -(2 * f * n) / (f - n), 0⟩ }

/-- glm `yawPitchRoll(yaw, pitch, roll)`. -/
def yawPitchRollM (yaw pitch roll : ℝ) : Mat4 :=
  let ch := Real.cos yaw
  let sh := Real.sin yaw
  let cp := Real.cos pitch
  let sp := Real.sin pitch
  let cb := Real.cos roll
  let sb := Real.sin roll
  { c0 := ⟨ch * cb + sh * sp * sb, sb * cp, -sh * cb + ch * sp * sb, 0⟩
    c1 := ⟨-ch * sb + sh * sp * cb, cb * cp, sb * sh + ch * sp * cb, 0⟩
    c2 := ⟨sh * cp, -sp, ch * cp, 0⟩
    c3 := ⟨0, 0, 0, 1⟩ }

/-- glm `project(obj, model, proj, viewport)`: transform by the model-view
and projection matrices, divide by `w`, rescale from `[-1,1]` to `[0,1]`, and
map the x/y components to the viewport.  The division by the clip `w` is real
division; C doubles produce `±inf`/NaN when `w = 0` (a point on the camera
plane), where Lean's convention gives `x / 0 = 0` instead — so every concrete
instance proved below is evaluated at `w ≠ 0`, and the universally quantified
statements equate expressions built from the same division. -/
def projectPoint (obj : Vec3) (model proj : Mat4) (viewport : Vec4) : Vec3 :=
  let t1 := mulVec model ⟨obj.x, obj.y, obj.z, 1⟩
  let t2 := mulVec proj t1
  let t3 : Vec4 := ⟨t2.x / t2.w, t2.y / t2.w, t2.z / t2.w, t2.w / t2.w⟩
  let t4 : Vec4 := ⟨t3.x * 0.5 + 0.5, t3.y * 0.5 + 0.5, t3.z * 0.5 + 0.5, t3.w * 0.5 + 0.5⟩
  ⟨t4.x * viewport.z + viewport.x, t4.y * viewport.w + viewport.y, t4.z⟩

/-! ## Camera data model (`part_002`) -/

/-- A calibration point: a world coordinate, a screen coordinate in `[-1,1]`
normalized device space, and the `isSet` flag (spec §3). -/
structure CalibrationPoint where
  world : Vec3
  screen : Vec2
  isSet : Bool

/-- `Modelled from the spec:` the constructor `CalibrationPoint(world)` used
at `part_002` l.1224 is declared in the camera header, which is not among the
provided sources.  Per the specification's data model (§3), a freshly added
point "has no screen correspondence yet": `isSet = false`; its screen
coordinate starts at the origin. -/
def CalibrationPoint.mk0 (w : Vec3) : CalibrationPoint := ⟨w, ⟨0, 0⟩, false⟩

/-- The camera state touched by the modelled operations: the pose
(`_eye`, `_target`, `_up`), lens parameters (`_fov`, `_cx`, `_cy`, `_near`,
`_far`), output size (`_width`, `_height`, C `int`s only ever used here
inside `double` expressions), the calibration-point list, the selected index
(a C `int`, `-1` when nothing is selected), the `_calibrationCalledOnce`
flag, and the calibration-point lists of the linked renderables
(`_objects`, one world-coordinate list per object). -/
structure CameraState where
  eye : Vec3
  target : Vec3
  up : Vec3
  fov : ℝ
  cx : ℝ
  cy : ℝ
  near : ℝ
  far : ℝ
  width : ℝ
  height : ℝ
  calibrationPoints : List CalibrationPoint
  selectedCalibrationPoint : Int
  calibrationCalledOnce : Bool
  objects : List (List Vec3)

/-- `Modelled from the spec:` `Object::addCalibrationPoint` (called at
`part_002` l.1231) belongs to the Renderable contract (spec §6); its
implementation is not among the provided sources.  Per spec §3 the camera
"propagates the point to every 3D object currently linked", so an object's
calibration-point list receives the propagated world coordinate. -/
def Object.addCalibrationPoint (o : List Vec3) (w : Vec3) : List Vec3 := o ++ [w]

namespace Camera

/-- The frustum bounds computed by
`Camera::computeProjectionMatrix(float fov, float cx, float cy)`
(`part_002` l.1523-1539), as `(l, r, b, t)`:
vertical half-extent `tTemp = near * tan(fov·π/360)` shifted off-center by
`cy`, horizontal half-extents `tTemp·width/height` shifted by `cx`. -/
def projectionBounds (st : CameraState) (fov cx cy : ℝ) : ℝ × ℝ × ℝ × ℝ :=
  let n := st.near
  let tTemp := n * Real.tan (fov * Real.pi / 360)
  let bTemp := -tTemp
  let t := tTemp - (cy - 0.5) * (tTemp - bTemp)
  let b := bTemp - (cy - 0.5) * (tTemp - bTemp)
  let rTemp := tTemp * st.width / st.height
  let lTemp := bTemp * st.width / st.height
  let r := rTemp - (cx - 0.5) * (rTemp - lTemp)
  let l := lTemp - (cx - 0.5) * (rTemp - lTemp)
  (l, r, b, t)

/-- `Camera::computeProjectionMatrix(float fov, float cx, float cy)`
(`part_002` l.1523-1541): `frustum(l, r, b, t, near, far)` on the computed
bounds. -/
def computeProjectionMatrix (st : CameraState) (fov cx cy : ℝ) : Mat4 :=
  let bounds := projectionBounds st fov cx cy
  frustumM bounds.1 bounds.2.1 bounds.2.2.1 bounds.2.2.2 st.near st.far

/-- The standard symmetric perspective frustum for a vertical field of view
`fov` (in degrees) and aspect `width/height`: `top = near * tan(fov·π/360)`,
`bottom = -top`, `right = top·width/height`, `left = -right`. -/
def symmetricFrustum (fov width height n f : ℝ) : Mat4 :=
  let t := n * Real.tan (fov * Real.pi / 360)
  frustumM (-(t * width / height)) (t * width / height) (-t) t n f

/-- `Camera::computeViewMatrix` (`part_002` l.1544-1556).  When
`_eye == _target` the target is first nudged:
`_target[0] = _eye[0] + _up[1]; _target[1] = _eye[1] + _up[2];
_target[2] = _eye[2] + _up[0];` — a cyclic permutation of `up` added to
`eye` — and only then `lookAt(_eye, _target, _up)` is built.  The member
mutation is modelled by returning the updated state together with the
matrix. -/
def computeViewMatrix (st : CameraState) : CameraState × Mat4 :=
  let st2 := if st.eye = st.target then
      { st with target := ⟨st.eye.x + st.up.y, st.eye.y + st.up.z, st.eye.z + st.up.x⟩ }
    else st
  (st2, lookAtM st2.eye st2.target st2.up)

/-- The pixel-space image point of a calibration point (`part_002` l.1432):
`((screen.x + 1)/2 · width, (screen.y + 1)/2 · height, 0)`. -/
def imagePointOf (st : CameraState) (p : CalibrationPoint) : Vec3 :=
  ⟨(p.screen.x + 1) / 2 * st.width, (p.screen.y + 1) / 2 * st.height, 0⟩

/-- The loop of `Camera::cameraCalibration_f` building the parallel
`objectPoints`/`imagePoints` vectors (`part_002` l.1426-1433): points with
`isSet == false` are skipped (l.1428-1429). -/
def collectCalibrationPairs (st : CameraState) :
    List CalibrationPoint → List (Vec3 × Vec3)
  | [] => []
  | p :: rest =>
      if p.isSet then (p.world, imagePointOf st p) :: collectCalibrationPairs st rest
      else collectCalibrationPairs st rest

/-- `Camera::cameraCalibration_f` (`part_002` l.1396-1461), the calibration
objective: unpack the 9-parameter vector as `(fov, cx, cy, eye.xyz,
euler.xyz)`; rotate the canonical forward `(1,0,0,0)` and up `(0,0,1,0)`
vectors by `yawPitchRoll(euler)` to obtain the look-at target and up; project
every `isSet` point through `lookAt(eye, target, up)` and the off-axis
projection for `(fov, cx, cy)` over the viewport `(0, 0, width, height)`;
zero the projected z (l.1450, the summed distance uses only x and y); sum the
squared pixel distances to the image points and divide by their count
(l.1445-1454). -/
def cameraCalibration_f (st : CameraState) (v : Fin 9 → ℝ) : ℝ :=
  let fov := v 0
  let cx := v 1
  let cy := v 2
  let eye : Vec3 := ⟨v 3, v 4, v 5⟩
  let euler : Vec3 := ⟨v 6, v 7, v 8⟩
  let rotateMat := yawPitchRollM euler.x euler.y euler.z
  let targetTmp := mulVec rotateMat ⟨1, 0, 0, 0⟩
  let upTmp := mulVec rotateMat ⟨0, 0, 1, 0⟩
  let target : Vec3 := ⟨targetTmp.x, targetTmp.y, targetTmp.z⟩
  let up : Vec3 := ⟨upTmp.x, upTmp.y, upTmp.z⟩
  let pairs := collectCalibrationPairs st st.calibrationPoints
  let lookM := lookAtM eye target up
  let projM := computeProjectionMatrix st fov cx cy
  let viewport : Vec4 := ⟨0, 0, st.width, st.height⟩
  let summed := pairs.foldl
    (fun acc pr =>
      let projected := projectPoint pr.1 lookM projM viewport
      acc + ((pr.2.x - projected.x) ^ 2 + (pr.2.y - projected.y) ^ 2)) 0
  summed / pairs.length

/-- The specification's contract for the calibration objective (spec §4.2 and
claim C1), written independently of the implementation loop: the mean, over
exactly the calibration points with `isSet = true`, of the squared pixel-space
distance between the point's world coordinate — projected through the look-at
view built from `eye` and the yaw-pitch-roll-rotated forward/up vectors and
through the off-axis projection for `(fov, cx, cy)`, with its z zeroed — and
the observed screen point mapped to pixel coordinates. -/
def meanSquaredReprojectionError (st : CameraState) (v : Fin 9 → ℝ) : ℝ :=
  let rotateMat := yawPitchRollM (v 6) (v 7) (v 8)
  let fwd := mulVec rotateMat ⟨1, 0, 0, 0⟩
  let upv := mulVec rotateMat ⟨0, 0, 1, 0⟩
  let view := lookAtM ⟨v 3, v 4, v 5⟩ ⟨fwd.x, fwd.y, fwd.z⟩ ⟨upv.x, upv.y, upv.z⟩
  let projM := computeProjectionMatrix st (v 0) (v 1) (v 2)
  let setPoints := st.calibrationPoints.filter (fun p => p.isSet)
  let errOf : CalibrationPoint → ℝ := fun p =>
    let q := projectPoint p.world view projM ⟨0, 0, st.width, st.height⟩
    let qz : Vec3 := ⟨q.x, q.y, 0⟩
    let img := imagePointOf st p
    (img.x - qz.x) ^ 2 + (img.y - qz.y) ^ 2
  (setPoints.map errOf).sum / setPoints.length

/-- The number of calibration points with `isSet == true`
(`part_002` l.668-671). -/
def countSetPoints (st : CameraState) : Nat :=
  (st.calibrationPoints.filter (fun p => p.isSet)).length

/-- The write-back of the solver's selected values into the camera pose
(`part_002` l.816-836): `(fov, cx, cy, eye)` directly from the vector;
`target` and `up` by rotating the canonical forward/up vectors with
`yawPitchRoll(euler)` and normalizing. -/
def applyCalibrationResult (st : CameraState) (selectedValues : Fin 9 → ℝ) :
    CameraState :=
  let euler : Vec3 := ⟨selectedValues 6, selectedValues 7, selectedValues 8⟩
  let rotateMat := yawPitchRollM euler.x euler.y euler.z
  let target := mulVec rotateMat ⟨1, 0, 0, 0⟩
  let up := mulVec rotateMat ⟨0, 0, 1, 0⟩
  { st with
      fov := selectedValues 0
      cx := selectedValues 1
      cy := selectedValues 2
      eye := ⟨selectedValues 3, selectedValues 4, selectedValues 5⟩
      target := normalize3 ⟨target.x, target.y, target.z⟩
      up := normalize3 ⟨up.x, up.y, up.z⟩ }

/-- The outcome of `Camera::doCalibration`: its boolean return value, whether
the minimizer stage ran at all, whether the "use at least 7 points" message
was logged (l.678-681), and the camera state afterwards. -/
structure CalibrationOutcome where
  result : Bool
  solveRun : Bool
  warnedUseSevenPoints : Bool
  finalState : CameraState

/-- `Camera::doCalibration` (`part_002` l.666-845).  The GSL multi-start
Nelder–Mead search (l.692-814) calls the external GSL library and `rand()`;
its outcome — the best 9-parameter vector found — is abstracted as the
`selectedValues` argument.  The function's own control flow is modelled
exactly: fewer than 6 set points warn and return `false` before touching any
state (l.673-677); fewer than 7 log the "use at least 7 points" message
(l.678-681); otherwise `_calibrationCalledOnce` is set (l.683), the solve
runs, the selected values are written back to the pose (l.816-836), and
`true` is returned (l.844). -/
def doCalibration (st : CameraState) (selectedValues : Fin 9 → ℝ) :
    CalibrationOutcome :=
  let pointsSet := countSetPoints st
  if pointsSet < 6 then
    { result := false, solveRun := false, warnedUseSevenPoints := false
      finalState := st }
  else
    { result := true
      solveRun := true
      warnedUseSevenPoints := decide (pointsSet < 7)
      finalState :=
        applyCalibrationResult { st with calibrationCalledOnce := true }
          selectedValues }

/-- The dedup loop of `Camera::addCalibrationPoint` (`part_002`
l.1217-1222): the first index whose `world` equals the argument. -/
def findPointIndex (w : Vec3) : List CalibrationPoint → Option Nat
  | [] => none
  | p :: rest =>
      if p.world = w then some 0
      else (findPointIndex w rest).map (· + 1)

/-- `Camera::addCalibrationPoint` (`part_002` l.1209-1235), for a 3-component
world point (the `worldPoint.size() < 3` guard of l.1211-1212 rejects
malformed attribute calls and is outside the modelled domain).  If a point
with the same world coordinate already exists it is selected and nothing is
added (l.1217-1222); otherwise a new unset point is appended and selected
(l.1224-1225) and the world coordinate is propagated to every linked object
(l.1228-1232). -/
def addCalibrationPoint (st : CameraState) (w : Vec3) : CameraState :=
  match findPointIndex w st.calibrationPoints with
  | some i => { st with selectedCalibrationPoint := (i : Int) }
  | none =>
      { st with
          calibrationPoints := st.calibrationPoints ++ [CalibrationPoint.mk0 w]
          selectedCalibrationPoint := (st.calibrationPoints.length : Int)
          objects := st.objects.map (fun o => Object.addCalibrationPoint o w) }

/-- The screen-space distance used by the nearest-point mode of
`Camera::removeCalibrationPoint` (`part_002` l.1273-1277): project the
point's world coordinate through `lookAt(_eye, _target, _up)` and
`computeProjectionMatrix(_fov, _cx, _cy)` over the viewport
`(0, 0, _width, _height)`, zero the z, and take the glm `length` of the
difference with `(pt.x, pt.y, 0)`. -/
def screenDistanceTo (st : CameraState) (pt : Vec2) (p : CalibrationPoint) : ℝ :=
  let lookM := lookAtM st.eye st.target st.up
  let projM := computeProjectionMatrix st st.fov st.cx st.cy
  let proj := projectPoint p.world lookM projM ⟨0, 0, st.width, st.height⟩
  Real.sqrt ((proj.x - pt.x) ^ 2 + (proj.y - pt.y) ^ 2 + (0 - 0) ^ 2)

/-- The exact value of `numeric_limits<double>::max()`, the sentinel that
initializes `minDist` in the nearest-point loop (`part_002` l.1268):
`(2 − 2⁻⁵²) · 2¹⁰²³ = 2¹⁰²⁴ − 2⁹⁷¹`. -/
def dblMax : ℝ := 2 ^ 1024 - 2 ^ 971

/-- The arg-min loop of the nearest-point mode (`part_002` l.1268-1280),
with the C sentinel pair carried literally: `minDist` starts at
`numeric_limits<double>::max()` (`dblMax`) and `index` at `-1`; a point
replaces the running best exactly when its distance compares strictly
smaller (`<`, l.1275), so the earliest point wins ties, and a point whose
distance is not below the sentinel (in C, an infinite distance from a
degenerate projection) is never selected. -/
def nearestPointIndex (dist : CalibrationPoint → ℝ) :
    List CalibrationPoint → Nat → Int → ℝ → Int × ℝ
  | [], _, index, minDist => (index, minDist)
  | p :: rest, i, index, minDist =>
      if dist p < minDist then nearestPointIndex dist rest (i + 1) (i : Int) (dist p)
      else nearestPointIndex dist rest (i + 1) index minDist

end Camera

/-- `Modelled from the spec:` `Object::removeCalibrationPoint` (called at
`part_002` l.1289) belongs to the Renderable contract (spec §6); its
implementation is not among the provided sources.  Per spec §3 the point is
"removed explicitly" from the linked objects, so removal drops the world
coordinate from the object's list. -/
def Object.removeCalibrationPoint (o : List Vec3) (w : Vec3) : List Vec3 :=
  o.filter (fun v => v ≠ w)

namespace Camera

/-- `Camera::removeCalibrationPoint` in the 2-component, nearest-screen-point
mode (`part_002` l.1258-1295): find the point whose projection is nearest to
`pt`, propagate the removal to every linked object (l.1285-1290), erase it and
clear `_calibrationCalledOnce` (l.1292-1293).  Note that the `unlessSet`
parameter is *never consulted* on this path — the nearest point is erased
whether or not it `isSet`; the flag is only read in the 3-component
exact-world mode (l.1303). -/
def removeCalibrationPoint2D (st : CameraState) (pt : Vec2) (_unlessSet : Bool) :
    CameraState :=
  let found := nearestPointIndex (screenDistanceTo st pt) st.calibrationPoints 0
    (-1) dblMax
  if found.1 = -1 then st
  else
    let i := found.1.toNat
    let w := (((st.calibrationPoints.get? i).map (fun p => p.world)).getD ⟨0, 0, 0⟩)
    { st with
        calibrationPoints := st.calibrationPoints.eraseIdx i
        objects := st.objects.map (fun o => Object.removeCalibrationPoint o w)
        calibrationCalledOnce := false }

/-- The `selectNextCalibrationPoint` attribute handler (`part_002`
l.1809-1812): `_selectedCalibrationPoint = (_selectedCalibrationPoint + 1) %
_calibrationPoints.size();`.  `_selectedCalibrationPoint` is a C `int` and
`size()` an unsigned 64-bit `size_t`, so the `int` operand converts to
`size_t` (reduction mod 2^64), `%` is the unsigned remainder, and the result
converts back to `int`.  When the point list is empty the divisor is `0` —
integer division by zero, undefined behaviour — modelled as `none`. -/
def selectNextCalibrationPoint (st : CameraState) : Option CameraState :=
  if st.calibrationPoints.length = 0 then none
  else some { st with selectedCalibrationPoint :=
    ((((st.selectedCalibrationPoint + 1).emod (2 ^ 64)).toNat
        % st.calibrationPoints.length : Nat) : Int) }

end Camera

/-! ## Concrete camera states used to instantiate the theorems -/

/-- A plain camera state: default-like pose, no calibration points, no linked
objects. -/
def baseCamera : CameraState :=
  { eye := ⟨1, 0, 0⟩, target := ⟨0, 0, 0⟩, up := ⟨0, 0, 1⟩
    fov := 35, cx := 0.5, cy := 0.5, near := 0.1, far := 100
    width := 640, height := 480
    calibrationPoints := [], selectedCalibrationPoint := -1
    calibrationCalledOnce := false, objects := [] }

/-- A camera whose eye and target coincide and whose up vector is zero. -/
def zeroUpCamera : CameraState :=
  { baseCamera with eye := ⟨0, 0, 0⟩, target := ⟨0, 0, 0⟩, up := ⟨0, 0, 0⟩ }

/-- A camera whose eye and target coincide, with the default up `(0,0,1)`. -/
def eyeTargetCamera : CameraState :=
  { baseCamera with eye := ⟨0, 0, 0⟩, target := ⟨0, 0, 0⟩ }

/-- A camera holding exactly one calibration point, already `isSet`, in a
pose chosen so that the point projects to finite, exactly computable screen
coordinates: eye at the origin looking along `+x` with up `(0,0,1)`, a 90°
field of view with centered principal point over a 2×2 viewport, near 1 and
far 3.  The point `(2,0,0)` sits on the view axis at view depth 2 (clip
`w = 2 ≠ 0`) and projects to the pixel `(1,1)`. -/
def setPointCamera : CameraState :=
  { eye := ⟨0, 0, 0⟩, target := ⟨1, 0, 0⟩, up := ⟨0, 0, 1⟩
    fov := 90, cx := 0.5, cy := 0.5, near := 1, far := 3
    width := 2, height := 2
    calibrationPoints := [⟨⟨2, 0, 0⟩, ⟨0, 0⟩, true⟩]
    selectedCalibrationPoint := 0
    calibrationCalledOnce := false, objects := [] }

/-- A camera holding three calibration points with selected index `-2` — the
value `selectPreviousCalibrationPoint` (`part_002` l.1814-1819) produces when
invoked on a deselected camera (`_selectedCalibrationPoint == -1` is not `0`,
so it is decremented to `-2`). -/
def threePointCamera : CameraState :=
  { baseCamera with
      calibrationPoints :=
        [CalibrationPoint.mk0 ⟨0, 0, 0⟩, CalibrationPoint.mk0 ⟨1, 0, 0⟩,
         CalibrationPoint.mk0 ⟨0, 1, 0⟩]
      selectedCalibrationPoint := -2 }

/-- A camera holding one (unset) calibration point at the world origin,
selected, with one linked object knowing that point. -/
def onePointCamera : CameraState :=
  { baseCamera with
      calibrationPoints := [CalibrationPoint.mk0 ⟨0, 0, 0⟩]
      selectedCalibrationPoint := 0
      objects := [[⟨0, 0, 0⟩]] }

/-- A camera holding six distinct calibration points, all `isSet`. -/
def sixPointCamera : CameraState :=
  { baseCamera with
      calibrationPoints :=
        [⟨⟨0, 0, 0⟩, ⟨0, 0⟩, true⟩, ⟨⟨1, 0, 0⟩, ⟨0, 0⟩, true⟩,
         ⟨⟨0, 1, 0⟩, ⟨0, 0⟩, true⟩, ⟨⟨0, 0, 1⟩, ⟨0, 0⟩, true⟩,
         ⟨⟨1, 1, 0⟩, ⟨0, 0⟩, true⟩, ⟨⟨1, 0, 1⟩, ⟨0, 0⟩, true⟩] }

end

/-! ### Correctness of the hole-filling model -/

/-- Case analysis for `scanLastSet`: either some cell of `[xx, xx + fuel)` is
set, and the scan returns the greatest such cell `q` together with `cam q` and
a raised flag, or none is, and the scan returns its inputs unchanged. -/
lemma scanLastSet_cases (set : Nat → Bool) (cam : Nat → Nat) :
    ∀ (fuel xx next he : Nat) (hole : Bool),
    (∃ q, set q = true ∧ xx ≤ q ∧ q < xx + fuel ∧
      (∀ j, q < j → j < xx + fuel → set j = false) ∧
      scanLastSet set cam fuel xx next he hole = (cam q, q, true)) ∨
    ((∀ j, xx ≤ j → j < xx + fuel → set j = false) ∧
      scanLastSet set cam fuel xx next he hole = (next, he, hole)) := by
  intro fuel
  induction fuel with
  | zero =>
      intro xx next he hole
      right
      exact ⟨fun j h1 h2 => absurd h2 (by omega), rfl⟩
  | succ fuel ih =>
      intro xx next he hole
      by_cases hsx : set xx = true
      · have hstep : scanLastSet set cam (fuel + 1) xx next he hole
            = scanLastSet set cam fuel (xx + 1) (cam xx) xx true := by
          simp [scanLastSet, hsx]
        rcases ih (xx + 1) (cam xx) xx true with
          ⟨q, hq, hq1, hq2, hq3, hq4⟩ | ⟨hall, heq⟩
        · refine Or.inl ⟨q, hq, by omega, by omega, ?_, by rw [hstep]; exact hq4⟩
          intro j hj1 hj2
          exact hq3 j hj1 (by omega)
        · refine Or.inl ⟨xx, hsx, le_refl _, by omega, ?_, by rw [hstep]; exact heq⟩
          intro j hj1 hj2
          exact hall j (by omega) (by omega)
      · have hsx' : set xx = false := by simpa using hsx
        have hstep : scanLastSet set cam (fuel + 1) xx next he hole
            = scanLastSet set cam fuel (xx + 1) next he hole := by
          simp [scanLastSet, hsx']
        rcases ih (xx + 1) next he hole with
          ⟨q, hq, hq1, hq2, hq3, hq4⟩ | ⟨hall, heq⟩
        · refine Or.inl ⟨q, hq, by omega, by omega, ?_, by rw [hstep]; exact hq4⟩
          intro j hj1 hj2
          exact hq3 j hj1 (by omega)
        · refine Or.inr ⟨?_, by rw [hstep]; exact heq⟩
          intro j hj1 hj2
          rcases Nat.eq_or_lt_of_le hj1 with h | h
          · exact h ▸ hsx'
          · exact hall j h (by omega)

/-- A set cell keeps its value in `fillRowSpec`. -/
lemma fillRowSpec_of_set (set : Nat → Bool) (cam : Nat → Nat) (W x : Nat)
    (h : set x = true) : fillRowSpec set cam W x = cam x := by
  simp [fillRowSpec, h]

/-- An unset cell with no set cell before it keeps its value in
`fillRowSpec`. -/
lemma fillRowSpec_of_noBelow (set : Nat → Bool) (cam : Nat → Nat) (W x : Nat)
    (hx : set x = false) (h : ∀ j, j < x → set j = false) :
    fillRowSpec set cam W x = cam x := by
  have hany : (List.range x).any (fun j => set j) = false := by
    simp only [List.any_eq_false, List.mem_range]
    intro j hj
    simp [h j hj]
  simp [fillRowSpec, hx, hany]

/-- An unset cell with no set cell at or after it keeps its value in
`fillRowSpec`. -/
lemma fillRowSpec_of_noAbove (set : Nat → Bool) (cam : Nat → Nat) (W x : Nat)
    (hx : set x = false) (h : ∀ j, x ≤ j → j < W → set j = false) :
    fillRowSpec set cam W x = cam x := by
  have hany : (List.range W).any (fun j => decide (x < j) && set j) = false := by
    simp only [List.any_eq_false, List.mem_range]
    intro j hj
    by_cases hxj : x < j
    · simp [h j (Nat.le_of_lt hxj) hj]
    · simp [hxj]
  simp [fillRowSpec, hx, hany]

/-- The value of `fillRowSpec` inside a hole: if `hs` is a set cell before
`x` with only unset cells strictly between, and `he` is the last set cell of
the row with `hs + 2 ≤ he`, the cell is interpolated between `cam hs` and
`cam he`. -/
lemma fillRowSpec_of_hole (set : Nat → Bool) (cam : Nat → Nat) (W x hs he : Nat)
    (hx : set x = false) (hhs : set hs = true) (hhsx : hs < x)
    (hbetween : ∀ j, hs < j → j < x → set j = false)
    (hhe : set he = true) (hhe2 : hs + 2 ≤ he) (hheW : he < W)
    (habove : ∀ j, he < j → j < W → set j = false) :
    fillRowSpec set cam W x = fillValue (cam hs) (cam he) (x - hs) (he - hs) := by
  have hhex : x < he := by
    rcases Nat.lt_trichotomy he x with h | h | h
    · exact absurd hhe (by simp [hbetween he (by omega) h])
    · exact absurd hhe (by simp [h ▸ hx])
    · exact h
  have hanyB : (List.range x).any (fun j => set j) = true := by
    rw [List.any_eq_true]
    exact ⟨hs, List.mem_range.mpr hhsx, hhs⟩
  have hanyA : (List.range W).any (fun j => decide (x < j) && set j) = true := by
    rw [List.any_eq_true]
    exact ⟨he, List.mem_range.mpr hheW, by simp [hhex, hhe]⟩
  have hp : Nat.findGreatest (fun j => set j = true) (x - 1) = hs := by
    rw [Nat.findGreatest_eq_iff]
    refine ⟨by omega, fun _ => hhs, ?_⟩
    intro n hn1 hn2 hn3
    have hf := hbetween n hn1 (by omega)
    rw [hf] at hn3
    exact Bool.false_ne_true hn3
  have hq : Nat.findGreatest (fun j => set j = true) (W - 1) = he := by
    rw [Nat.findGreatest_eq_iff]
    refine ⟨by omega, fun _ => hhe, ?_⟩
    intro n hn1 hn2 hn3
    have hf := habove n hn1 (by omega)
    rw [hf] at hn3
    exact Bool.false_ne_true hn3
  simp only [fillRowSpec, hx, hanyB, hanyA, hp, hq, Bool.false_eq_true,
    if_false, Bool.and_self, if_true]

/-- Invariant lemma for the hole-filling loop: started at cell `x` in a state
whose locals describe a reachable loop configuration — cells before `x`
already finished, cells from `x` on untouched, and, inside a hole, the locals
holding the hole's left border and the last set cell of the row — the loop
finishes every cell of the row according to `fillRowSpec`. -/
lemma fillHolesAux_spec (set : Nat → Bool) (cam : Nat → Nat) (W : Nat) :
    ∀ (fuel x : Nat) (hole : Bool) (last next hs he : Nat) (out : Nat → Nat),
      2 * (W - x) + (if hole then 1 else 0) ≤ fuel →
      (∀ i, i < x → out i = fillRowSpec set cam W i) →
      (∀ i, x ≤ i → out i = cam i) →
      (hole = true →
        set hs = true ∧ hs < x ∧
        (∀ j, hs < j → j < x → set j = false) ∧
        last = cam hs ∧ set he = true ∧ hs + 2 ≤ he ∧ he < W ∧
        (∀ j, he < j → j < W → set j = false) ∧ next = cam he) →
      (hole = false → x < W → set x = false →
        (∀ j, j < x → set j = false) ∨ (∀ j, x ≤ j → j < W → set j = false)) →
      ∀ i, i < W →
        fillHolesAux set cam W fuel x hole last next hs he out i
          = fillRowSpec set cam W i := by
  intro fuel
  induction fuel with
  | zero =>
      intro x hole last next hs he out hfuel h1 h2 _ _ i hi
      have hxW : W ≤ x := by cases hole <;> (simp at hfuel; try omega)
      show out i = fillRowSpec set cam W i
      exact h1 i (by omega)
  | succ fuel ih =>
      intro x hole last next hs he out hfuel h1 h2 hholeInv hnoHoleInv i hi
      by_cases hxW : x < W
      · cases hsx : set x with
        | false =>
            cases hole with
            | false =>
                have hfuel' : 2 * (W - x) ≤ fuel + 1 := by simpa using hfuel
                have hred : fillHolesAux set cam W (fuel + 1) x false last next hs he out
                    = fillHolesAux set cam W fuel (x + 1) false last next hs he out := by
                  simp [fillHolesAux, hxW, hsx]
                rw [hred]
                have hfx : 2 * (W - (x + 1)) ≤ fuel := by omega
                refine ih (x + 1) false last next hs he out
                  hfx ?_ (fun i' hi' => h2 i' (by omega))
                  (by simp) ?_ i hi
                · intro i' hi'
                  rcases Nat.lt_or_ge i' x with h | h
                  · exact h1 i' h
                  · have hix : i' = x := by omega
                    subst hix
                    rw [h2 i' le_rfl]
                    rcases hnoHoleInv rfl hxW hsx with hL | hR
                    · exact (fillRowSpec_of_noBelow set cam W i' hsx hL).symm
                    · exact (fillRowSpec_of_noAbove set cam W i' hsx hR).symm
                · intro _ hx1W hsx1
                  rcases hnoHoleInv rfl hxW hsx with hL | hR
                  · left
                    intro j hj
                    rcases Nat.lt_or_ge j x with h | h
                    · exact hL j h
                    · have hjx : j = x := by omega
                      exact hjx ▸ hsx
                  · right
                    intro j hj1 hj2
                    exact hR j (by omega) hj2
            | true =>
                have hfuel' : 2 * (W - x) + 1 ≤ fuel + 1 := by simpa using hfuel
                obtain ⟨ihs, ihsx, ibet, ilast, ihe, ihe2, iheW, iabove, inext⟩ :=
                  hholeInv rfl
                have hred : fillHolesAux set cam W (fuel + 1) x true last next hs he out
                    = fillHolesAux set cam W fuel (x + 1) true last next hs he
                        (fun i' => if i' = x then fillValue last next (x - hs) (he - hs)
                          else out i') := by
                  simp [fillHolesAux, hxW, hsx]
                rw [hred]
                have hfx : 2 * (W - (x + 1)) + 1 ≤ fuel := by omega
                refine ih (x + 1) true last next hs he _
                  hfx ?_ ?_ ?_ (by simp) i hi
                · intro i' hi'
                  by_cases hieq : i' = x
                  · subst hieq
                    simp only [if_pos rfl]
                    rw [ilast, inext]
                    exact (fillRowSpec_of_hole set cam W i' hs he hsx ihs ihsx ibet
                      ihe ihe2 iheW iabove).symm
                  · simp only [if_neg hieq]
                    exact h1 i' (by omega)
                · intro i' hi'
                  simp only [if_neg (by omega : ¬ i' = x)]
                  exact h2 i' (by omega)
                · intro _
                  refine ⟨ihs, by omega, ?_, ilast, ihe, ihe2, iheW, iabove, inext⟩
                  intro j hj1 hj2
                  rcases Nat.lt_or_ge j x with h | h
                  · exact ibet j hj1 h
                  · have hjx : j = x := by omega
                    exact hjx ▸ hsx
        | true =>
            cases hole with
            | false =>
                have hfuel' : 2 * (W - x) ≤ fuel + 1 := by simpa using hfuel
                by_cases hnext : (decide (x < W - 1) && set (x + 1)) = true
                · have hred : fillHolesAux set cam W (fuel + 1) x false last next hs he out
                      = fillHolesAux set cam W fuel (x + 1) false last next hs he out := by
                    simp only [fillHolesAux, if_pos hxW, hsx]
                    rw [if_pos hnext]
                  rw [hred]
                  have hsx1 : set (x + 1) = true := (Bool.and_eq_true _ _ |>.mp hnext).2
                  have hfx : 2 * (W - (x + 1)) ≤ fuel := by omega
                  refine ih (x + 1) false last next hs he out
                    hfx ?_
                    (fun i' hi' => h2 i' (by omega)) (by simp) ?_ i hi
                  · intro i' hi'
                    rcases Nat.lt_or_ge i' x with h | h
                    · exact h1 i' h
                    · have hix : i' = x := by omega
                      subst hix
                      rw [h2 i' le_rfl]
                      exact (fillRowSpec_of_set set cam W i' hsx).symm
                  · intro _ _ hcontra
                    rw [hsx1] at hcontra
                    exact absurd hcontra (by simp)
                · have hred : fillHolesAux set cam W (fuel + 1) x false last next hs he out
                      = fillHolesAux set cam W fuel (x + 1)
                          (scanLastSet set cam (W - (x + 2)) (x + 2) next he false).2.2
                          (cam x)
                          (scanLastSet set cam (W - (x + 2)) (x + 2) next he false).1
                          x
                          (scanLastSet set cam (W - (x + 2)) (x + 2) next he false).2.1
                          out := by
                    simp only [fillHolesAux, if_pos hxW, hsx]
                    rw [if_neg hnext]
                  rw [hred]
                  have hout1 : ∀ i', i' < x + 1 → out i' = fillRowSpec set cam W i' := by
                    intro i' hi'
                    rcases Nat.lt_or_ge i' x with h | h
                    · exact h1 i' h
                    · have hix : i' = x := by omega
                      subst hix
                      rw [h2 i' le_rfl]
                      exact (fillRowSpec_of_set set cam W i' hsx).symm
                  rcases scanLastSet_cases set cam (W - (x + 2)) (x + 2) next he false with
                    ⟨q, hq, hq1, hq2, hq3, hq4⟩ | ⟨hnone, heq⟩
                  · rw [hq4]
                    have hfx : 2 * (W - (x + 1)) + 1 ≤ fuel := by omega
                    refine ih (x + 1) true (cam x) (cam q) x q out
                      hfx hout1
                      (fun i' hi' => h2 i' (by omega)) ?_ (by simp) i hi
                    intro _
                    refine ⟨hsx, by omega, by omega, rfl, hq, by omega, by omega, ?_, rfl⟩
                    intro j hj1 hj2
                    exact hq3 j hj1 (by omega)
                  · rw [heq]
                    have hfx : 2 * (W - (x + 1)) ≤ fuel := by omega
                    refine ih (x + 1) false (cam x) next x he out
                      hfx hout1
                      (fun i' hi' => h2 i' (by omega)) (by simp) ?_ i hi
                    intro _ hx1W hsx1
                    right
                    intro j hj1 hj2
                    rcases Nat.lt_or_ge j (x + 2) with h | h
                    · have hjx : j = x + 1 := by omega
                      exact hjx ▸ hsx1
                    · exact hnone j h (by omega)
            | true =>
                have hfuel' : 2 * (W - x) + 1 ≤ fuel + 1 := by simpa using hfuel
                have hred : fillHolesAux set cam W (fuel + 1) x true last next hs he out
                    = fillHolesAux set cam W fuel x false last next hs he out := by
                  simp [fillHolesAux, hxW, hsx]
                rw [hred]
                have hfx : 2 * (W - x) ≤ fuel := by omega
                refine ih x false last next hs he out
                  hfx h1 h2 (by simp) ?_ i hi
                intro _ _ hcontra
                rw [hsx] at hcontra
                exact absurd hcontra (by simp)
      · have hred : fillHolesAux set cam W (fuel + 1) x hole last next hs he out = out := by
          simp [fillHolesAux, hxW]
        rw [hred]
        exact h1 i (by omega)

/-- The hole-filling pass computes `fillRowSpec` on every cell of the row. -/
lemma fillHolesRow_eq_spec (set : Nat → Bool) (cam : Nat → Nat) (W : Nat) :
    ∀ i, i < W → fillHolesRow set cam W i = fillRowSpec set cam W i := by
  intro i hi
  refine fillHolesAux_spec set cam W (2 * W + 1) 0 false 0 0 0 0 cam
    (by simp) (by omega) (fun _ _ => rfl) (by simp) ?_ i hi
  intro _ _ _
  left
  omega

/-! ### Behaviour of the swap-counter semantics -/

/-- Running concatenated event lists composes the counter state and
concatenates the swap records. -/
lemma runWindowEvents_append (l1 l2 : List WindowEvent) :
    ∀ c, runWindowEvents c (l1 ++ l2)
      = ((runWindowEvents (runWindowEvents c l1).1 l2).1,
         (runWindowEvents c l1).2 ++ (runWindowEvents (runWindowEvents c l1).1 l2).2) := by
  induction l1 with
  | nil => intro c; simp [runWindowEvents]
  | cons e rest ih =>
      intro c
      cases e with
      | render w => simp [runWindowEvents, windowStep, ih]
      | swap w => simp [runWindowEvents, windowStep, ih]

/-- A block of `render` calls produces no swap record; if there is at least
one `render`, the counter ends at `0` whatever its starting value. -/
lemma runWindowEvents_renders (ws : List Nat) :
    ∀ c, (runWindowEvents c (ws.map WindowEvent.render)).2 = [] ∧
      (runWindowEvents c (ws.map WindowEvent.render)).1 = (if ws = [] then c else 0) := by
  induction ws with
  | nil => intro c; simp [runWindowEvents]
  | cons w rest ih =>
      intro c
      have h := ih 0
      refine ⟨?_, ?_⟩
      · simp [runWindowEvents, windowStep, h.1]
      · simp only [List.map_cons, runWindowEvents, windowStep]
        rw [h.2]
        simp only [if_neg (List.cons_ne_nil w rest)]
        split <;> rfl

/-- A block of `swap` calls started at counter value `c` observes the values
`c, c + 1, …` in order, and advances the counter by the number of swaps. -/
lemma runWindowEvents_swaps (ws : List Nat) :
    ∀ c, ((runWindowEvents c (ws.map WindowEvent.swap)).2).map (fun r => r.observed)
        = List.range' c ws.length ∧
      (runWindowEvents c (ws.map WindowEvent.swap)).1 = c + ws.length := by
  induction ws with
  | nil => intro c; simp [runWindowEvents]
  | cons w rest ih =>
      intro c
      have h := ih (c + 1)
      refine ⟨?_, ?_⟩
      · simp [runWindowEvents, windowStep, h.1, List.range'_succ]
      · simp only [List.map_cons, runWindowEvents, windowStep]
        rw [h.2]
        simp
        omega

/-- In a block of `swap` calls, every record presents and blits to the back
buffer exactly when its observed pre-increment value is `0`. -/
lemma runWindowEvents_swaps_flags (ws : List Nat) :
    ∀ c r, r ∈ (runWindowEvents c (ws.map WindowEvent.swap)).2 →
      r.presented = decide (r.observed = 0) ∧ r.blitToBack = decide (r.observed = 0) := by
  induction ws with
  | nil => intro c r hr; simp [runWindowEvents] at hr
  | cons w rest ih =>
      intro c r hr
      simp only [List.map_cons, runWindowEvents, windowStep] at hr
      rcases List.mem_cons.mp hr with h | h
      · subst h
        exact ⟨rfl, rfl⟩
      · exact ih (c + 1) r h

/-! ## Claim theorems -/

/-- **C7.** For every camera state (carrying `near`, `far` and the viewport
aspect `width`/`height`) and every field of view, `computeProjectionMatrix`
called with principal point `cx = cy = 0.5` produces exactly a symmetric
frustum: the computed bounds satisfy `left = -right` and `bottom = -top`,
with `top = near * tan(fov/2)` (`fov` in degrees, so `fov·π/360` radians) and
`right = top * width / height`, and the resulting matrix equals the standard
symmetric perspective frustum for that fov and aspect. -/
theorem Camera.computeProjectionMatrix_symmetric (st : CameraState) (fov : ℝ) :
    (Camera.projectionBounds st fov 0.5 0.5).1
        = -(Camera.projectionBounds st fov 0.5 0.5).2.1 ∧
    (Camera.projectionBounds st fov 0.5 0.5).2.2.1
        = -(Camera.projectionBounds st fov 0.5 0.5).2.2.2 ∧
    (Camera.projectionBounds st fov 0.5 0.5).2.2.2
        = st.near * Real.tan (fov * Real.pi / 360) ∧
    (Camera.projectionBounds st fov 0.5 0.5).2.1
        = (Camera.projectionBounds st fov 0.5 0.5).2.2.2 * st.width / st.height ∧
    Camera.computeProjectionMatrix st fov 0.5 0.5
        = Camera.symmetricFrustum fov st.width st.height st.near st.far := by
  have hb : Camera.projectionBounds st fov 0.5 0.5
      = (-(st.near * Real.tan (fov * Real.pi / 360) * st.width / st.height),
         st.near * Real.tan (fov * Real.pi / 360) * st.width / st.height,
         -(st.near * Real.tan (fov * Real.pi / 360)),
         st.near * Real.tan (fov * Real.pi / 360)) := by
    simp only [Camera.projectionBounds, Prod.mk.injEq]
    refine ⟨by ring, ?_, ?_, ?_⟩
    · ring
    · ring
    · ring
  refine ⟨?_, ?_, ?_, ?_, ?_⟩
  · rw [hb]
  · rw [hb]
  · rw [hb]
  · rw [hb]
  · simp only [Camera.computeProjectionMatrix, Camera.symmetricFrustum, hb]

/-- **C8 (amended).** For every camera state with `eye = target`, the next
`computeViewMatrix` call first replaces `target` by `eye` plus the cyclic
permutation of `up`'s components (`target.x = eye.x + up.y`,
`target.y = eye.y + up.z`, `target.z = eye.z + up.x`) before building the
look-at matrix from the corrected state; *provided `up` is not the zero
vector*, the look-at computation then receives distinct eye and target.
States with `eye ≠ target` are left unchanged.  (The original claim asserts
distinctness for *every* state; it fails when `up = (0,0,0)`, a state
reachable through the unvalidated `up` attribute setter, `part_002`
l.1646-1653 — see the counterexample.) -/
theorem Camera.computeViewMatrix_degenerate_guard (st : CameraState) :
    (st.eye = st.target →
      (Camera.computeViewMatrix st).1.target
          = ⟨st.eye.x + st.up.y, st.eye.y + st.up.z, st.eye.z + st.up.x⟩ ∧
      (¬(st.up.x = 0 ∧ st.up.y = 0 ∧ st.up.z = 0) →
        (Camera.computeViewMatrix st).1.target ≠ (Camera.computeViewMatrix st).1.eye)) ∧
    (st.eye ≠ st.target → (Camera.computeViewMatrix st).1 = st) ∧
    (Camera.computeViewMatrix st).1.eye = st.eye ∧
    (Camera.computeViewMatrix st).2
        = lookAtM (Camera.computeViewMatrix st).1.eye
            (Camera.computeViewMatrix st).1.target (Camera.computeViewMatrix st).1.up := by
  by_cases h : st.eye = st.target
  · have htgt : (Camera.computeViewMatrix st).1.target
        = ⟨st.eye.x + st.up.y, st.eye.y + st.up.z, st.eye.z + st.up.x⟩ := by
      simp [Camera.computeViewMatrix, if_pos h]
    have heye : (Camera.computeViewMatrix st).1.eye = st.eye := by
      simp [Camera.computeViewMatrix, if_pos h]
    refine ⟨fun _ => ⟨htgt, ?_⟩, fun hne => absurd h hne, heye, ?_⟩
    · intro hup heq
      rw [htgt, heye] at heq
      rw [Vec3.ext_iff] at heq
      obtain ⟨h1, h2, h3⟩ := heq
      dsimp only at h1 h2 h3
      exact hup ⟨by linarith, by linarith, by linarith⟩
    · simp [Camera.computeViewMatrix]
  · have hst : (Camera.computeViewMatrix st).1 = st := by
      simp [Camera.computeViewMatrix, if_neg h]
    refine ⟨fun he => absurd he h, fun _ => hst, by rw [hst], ?_⟩
    simp [Camera.computeViewMatrix]

/-- Witness for C8: at the concrete state with `eye = target = (0,0,0)` and
the default `up = (0,0,1)`, the corrected target is `(0,1,0)`, distinct from
the eye. -/
theorem Camera.computeViewMatrix_degenerate_guard_witness :
    eyeTargetCamera.eye = eyeTargetCamera.target ∧
    (Camera.computeViewMatrix eyeTargetCamera).1.target
        = ⟨eyeTargetCamera.eye.x + eyeTargetCamera.up.y,
           eyeTargetCamera.eye.y + eyeTargetCamera.up.z,
           eyeTargetCamera.eye.z + eyeTargetCamera.up.x⟩ ∧
    (Camera.computeViewMatrix eyeTargetCamera).1.target
        ≠ (Camera.computeViewMatrix eyeTargetCamera).1.eye := by
  have he : eyeTargetCamera.eye = eyeTargetCamera.target := rfl
  have h := Camera.computeViewMatrix_degenerate_guard eyeTargetCamera
  refine ⟨he, (h.1 he).1, (h.1 he).2 ?_⟩
  intro hz
  have : (1 : ℝ) = 0 := hz.2.2
  norm_num at this

/-- Counterexample for C8 as stated: at the state with
`eye = target = (0,0,0)` and `up = (0,0,0)`, the cyclic-permutation nudge
leaves `target` equal to `eye`, so the look-at computation *does* receive
identical eye and target. -/
theorem Camera.computeViewMatrix_zero_up_counterexample :
    zeroUpCamera.eye = zeroUpCamera.target ∧
    (Camera.computeViewMatrix zeroUpCamera).1.target
        = (Camera.computeViewMatrix zeroUpCamera).1.eye := by
  have he : zeroUpCamera.eye = zeroUpCamera.target := rfl
  have h := Camera.computeViewMatrix_degenerate_guard zeroUpCamera
  refine ⟨he, ?_⟩
  rw [(h.1 he).1, h.2.2.1]
  show (⟨(0 : ℝ) + 0, 0 + 0, 0 + 0⟩ : Vec3) = ⟨0, 0, 0⟩
  norm_num

/-- Counterexample for C10 as stated: at a camera with three calibration
points and selected index `-2` — the value `selectPreviousCalibrationPoint`
(`part_002` l.1814-1819) leaves behind when invoked on a deselected camera —
the handler computes `(size_t)(-2 + 1) % 3 = (2^64 - 1) mod 3 = 0`, not the
claimed `(selected + 1) mod size = (-1) mod 3 = 2`. -/
theorem Camera.selectNextCalibrationPoint_counterexample :
    threePointCamera.calibrationPoints.length = 3 ∧
    threePointCamera.selectedCalibrationPoint = -2 ∧
    Camera.selectNextCalibrationPoint threePointCamera
      = some { threePointCamera with selectedCalibrationPoint := 0 } ∧
    (threePointCamera.selectedCalibrationPoint + 1)
        % (threePointCamera.calibrationPoints.length : Int) = 2 := by
  have hX : ((((threePointCamera.selectedCalibrationPoint + 1).emod (2 ^ 64)).toNat
        % threePointCamera.calibrationPoints.length : Nat) : Int) = 0 := by decide
  refine ⟨rfl, rfl, ?_, by decide⟩
  simp only [Camera.selectNextCalibrationPoint,
    if_neg (by decide : ¬ threePointCamera.calibrationPoints.length = 0)]
  rw [hX]

/-- **C10 (amended).** The `selectNextCalibrationPoint` attribute handler
sets the selected index to `(size_t)(selected + 1) mod size`, i.e. the
`int → size_t` conversion reduces `selected + 1` modulo `2^64` before the
unsigned remainder is taken.  For `-1 ≤ selected < size` — the values the
selection, deselection and add operations themselves produce — this equals
`(selected + 1) mod size` as the claim states; for `selected < -1`
(reachable via `selectPreviousCalibrationPoint` on a deselected camera) it is
`(selected + 1 + 2^64) mod size` instead.  With an empty list the modulo
divisor is zero — division by zero — so the operation is only safe when at
least one calibration point exists. -/
theorem Camera.selectNextCalibrationPoint_spec (st : CameraState) :
    (st.calibrationPoints = [] → Camera.selectNextCalibrationPoint st = none) ∧
    (st.calibrationPoints ≠ [] →
      -1 ≤ st.selectedCalibrationPoint →
      st.selectedCalibrationPoint < st.calibrationPoints.length →
      (st.calibrationPoints.length : Int) < 2 ^ 64 →
      Camera.selectNextCalibrationPoint st
        = some { st with selectedCalibrationPoint :=
            (st.selectedCalibrationPoint + 1) % (st.calibrationPoints.length : Int) }) ∧
    (st.calibrationPoints ≠ [] →
      st.selectedCalibrationPoint < -1 →
      -(2 ^ 64) < st.selectedCalibrationPoint + 1 →
      Camera.selectNextCalibrationPoint st
        = some { st with selectedCalibrationPoint :=
            (st.selectedCalibrationPoint + 1 + 2 ^ 64)
              % (st.calibrationPoints.length : Int) }) := by
  refine ⟨?_, ?_, ?_⟩
  · intro h
    simp [Camera.selectNextCalibrationPoint, h]
  · intro hne h1 h2 h3
    have hlen0 : ¬ st.calibrationPoints.length = 0 := by
      simpa using fun h => hne (List.length_eq_zero.mp h)
    have h4 : (st.selectedCalibrationPoint + 1).emod (2 ^ 64)
        = st.selectedCalibrationPoint + 1 :=
      Int.emod_eq_of_lt (by omega) (by omega)
    have harith : ((((st.selectedCalibrationPoint + 1).emod (2 ^ 64)).toNat
          % st.calibrationPoints.length : Nat) : Int)
        = (st.selectedCalibrationPoint + 1) % (st.calibrationPoints.length : Int) := by
      rw [h4]
      push_cast
      rw [Int.toNat_of_nonneg (by omega)]
    simp only [Camera.selectNextCalibrationPoint, if_neg hlen0]
    rw [harith]
  · intro hne h1 h2
    have hlen0 : ¬ st.calibrationPoints.length = 0 := by
      simpa using fun h => hne (List.length_eq_zero.mp h)
    have h4 : (st.selectedCalibrationPoint + 1).emod (2 ^ 64)
        = st.selectedCalibrationPoint + 1 + 2 ^ 64 := by
      have hconv : (st.selectedCalibrationPoint + 1).emod (2 ^ 64)
          = (st.selectedCalibrationPoint + 1) % ((2 : Int) ^ 64) := rfl
      have hlit : (2 : Int) ^ 64 = 18446744073709551616 := by norm_num
      rw [hconv, hlit]
      rw [hlit] at h2
      omega
    have harith : ((((st.selectedCalibrationPoint + 1).emod (2 ^ 64)).toNat
          % st.calibrationPoints.length : Nat) : Int)
        = (st.selectedCalibrationPoint + 1 + 2 ^ 64)
            % (st.calibrationPoints.length : Int) := by
      rw [h4]
      push_cast
      rw [Int.toNat_of_nonneg (by omega)]
    simp only [Camera.selectNextCalibrationPoint, if_neg hlen0]
    rw [harith]

/-- Witness for C10: on a camera with one calibration point and selected
index 0, the handler succeeds and selects `(0 + 1) % 1 = 0`; on the
three-point camera with selected index `-2` it selects
`(-2 + 1 + 2^64) % 3`.  The hypotheses hold at these states. -/
theorem Camera.selectNextCalibrationPoint_spec_witness :
    onePointCamera.calibrationPoints ≠ [] ∧
    -1 ≤ onePointCamera.selectedCalibrationPoint ∧
    onePointCamera.selectedCalibrationPoint < onePointCamera.calibrationPoints.length ∧
    Camera.selectNextCalibrationPoint onePointCamera
      = some { onePointCamera with selectedCalibrationPoint :=
          (onePointCamera.selectedCalibrationPoint + 1)
            % (onePointCamera.calibrationPoints.length : Int) } ∧
    Camera.selectNextCalibrationPoint threePointCamera
      = some { threePointCamera with selectedCalibrationPoint :=
          (threePointCamera.selectedCalibrationPoint + 1 + 2 ^ 64)
            % (threePointCamera.calibrationPoints.length : Int) } := by
  have hne : onePointCamera.calibrationPoints ≠ [] := by
    simp [onePointCamera]
  have h1 : -1 ≤ onePointCamera.selectedCalibrationPoint := by
    simp [onePointCamera]
  have h2 : onePointCamera.selectedCalibrationPoint
      < onePointCamera.calibrationPoints.length := by
    simp [onePointCamera]
  have h3 : (onePointCamera.calibrationPoints.length : Int) < 2 ^ 64 := by
    simp [onePointCamera]
  exact ⟨hne, h1, h2,
    (Camera.selectNextCalibrationPoint_spec onePointCamera).2.1 hne h1 h2 h3,
    (Camera.selectNextCalibrationPoint_spec threePointCamera).2.2
      (by simp [threePointCamera, baseCamera]) (by decide) (by decide)⟩

/-- **C2.** `doCalibration` returns `false` — performing no solve and leaving
the camera state (in particular the pose parameters fov, cx, cy, eye, target,
up) unchanged — if and only if fewer than 6 calibration points are `isSet`;
with 6 or more it runs the solve and returns `true`, and it emits the
"use at least 7 points" recommendation exactly when 6 points are set. -/
theorem Camera.doCalibration_point_gate (st : CameraState) (v : Fin 9 → ℝ) :
    ((Camera.doCalibration st v).result = false ↔ Camera.countSetPoints st < 6) ∧
    (Camera.countSetPoints st < 6 →
      (Camera.doCalibration st v).finalState = st ∧
      (Camera.doCalibration st v).solveRun = false) ∧
    (6 ≤ Camera.countSetPoints st →
      (Camera.doCalibration st v).result = true ∧
      (Camera.doCalibration st v).solveRun = true) ∧
    ((Camera.doCalibration st v).warnedUseSevenPoints = true ↔
      Camera.countSetPoints st = 6) := by
  by_cases h : Camera.countSetPoints st < 6
  · refine ⟨by simp [Camera.doCalibration, h], fun _ => by simp [Camera.doCalibration, h],
      fun h6 => absurd h (by omega), ?_⟩
    simp only [Camera.doCalibration, if_pos h]
    constructor
    · intro hf
      exact absurd hf (by simp)
    · intro h6
      omega
  · refine ⟨by simp [Camera.doCalibration, h], fun hlt => absurd hlt h,
      fun _ => by simp [Camera.doCalibration, h], ?_⟩
    simp only [Camera.doCalibration, if_neg h]
    simp only [decide_eq_true_eq]
    omega

/-- Witness for C2: a camera with exactly 6 set points solves and warns; a
camera with no set point fails with its state untouched. -/
theorem Camera.doCalibration_point_gate_witness :
    Camera.countSetPoints sixPointCamera = 6 ∧
    (Camera.doCalibration sixPointCamera (fun _ => 0)).result = true ∧
    (Camera.doCalibration sixPointCamera (fun _ => 0)).warnedUseSevenPoints = true ∧
    Camera.countSetPoints baseCamera < 6 ∧
    (Camera.doCalibration baseCamera (fun _ => 0)).result = false ∧
    (Camera.doCalibration baseCamera (fun _ => 0)).finalState = baseCamera := by
  have h6 : Camera.countSetPoints sixPointCamera = 6 := by
    simp [Camera.countSetPoints, sixPointCamera, baseCamera]
  have h0 : Camera.countSetPoints baseCamera < 6 := by
    simp [Camera.countSetPoints, baseCamera]
  have hA := Camera.doCalibration_point_gate sixPointCamera (fun _ => 0)
  have hB := Camera.doCalibration_point_gate baseCamera (fun _ => 0)
  exact ⟨h6, (hA.2.2.1 (by omega)).1, hA.2.2.2.mpr h6, h0, hB.1.mpr h0,
    (hB.2.1 h0).1⟩

/-- The dedup scan finds nothing exactly when no point carries the world
coordinate. -/
lemma Camera.findPointIndex_none_iff (w : Vec3) :
    ∀ l : List CalibrationPoint,
      Camera.findPointIndex w l = none ↔ ∀ p ∈ l, p.world ≠ w := by
  intro l
  induction l with
  | nil => simp [Camera.findPointIndex]
  | cons p rest ih =>
      by_cases h : p.world = w
      · simp [Camera.findPointIndex, h]
      · simp [Camera.findPointIndex, h, ih]

/-- When the dedup scan returns an index, that index holds a point with the
searched world coordinate. -/
lemma Camera.findPointIndex_some_spec (w : Vec3) :
    ∀ (l : List CalibrationPoint) (i : Nat),
      Camera.findPointIndex w l = some i →
      ∃ p, l[i]? = some p ∧ p.world = w := by
  intro l
  induction l with
  | nil => intro i h; simp [Camera.findPointIndex] at h
  | cons p rest ih =>
      intro i h
      by_cases hp : p.world = w
      · simp only [Camera.findPointIndex, if_pos hp, Option.some.injEq] at h
        subst h
        exact ⟨p, by simp, hp⟩
      · simp only [Camera.findPointIndex, if_neg hp, Option.map_eq_some'] at h
        obtain ⟨j, hj, rfl⟩ := h
        obtain ⟨q, hq, hqw⟩ := ih j hj
        exact ⟨q, by simpa using hq, hqw⟩

/-- **C9.** The calibration-point list never acquires two points with equal
world coordinates through `addCalibrationPoint`: adding a world coordinate
already present appends nothing and selects the index of the existing point;
adding a fresh coordinate appends one unset point, selects it, and
propagates it to every linked renderable — and in both cases the
no-duplicate invariant is preserved. -/
theorem Camera.addCalibrationPoint_spec (st : CameraState) (w : Vec3) :
    (st.calibrationPoints.Pairwise (fun p q => p.world ≠ q.world) →
      (Camera.addCalibrationPoint st w).calibrationPoints.Pairwise
        (fun p q => p.world ≠ q.world)) ∧
    ((∃ p ∈ st.calibrationPoints, p.world = w) →
      (Camera.addCalibrationPoint st w).calibrationPoints = st.calibrationPoints ∧
      (Camera.addCalibrationPoint st w).objects = st.objects ∧
      ∃ i : Nat, Camera.findPointIndex w st.calibrationPoints = some i ∧
        (Camera.addCalibrationPoint st w).selectedCalibrationPoint = (i : Int) ∧
        ∃ p, st.calibrationPoints[i]? = some p ∧ p.world = w) ∧
    ((∀ p ∈ st.calibrationPoints, p.world ≠ w) →
      (Camera.addCalibrationPoint st w).calibrationPoints
          = st.calibrationPoints ++ [CalibrationPoint.mk0 w] ∧
      (Camera.addCalibrationPoint st w).selectedCalibrationPoint
          = (st.calibrationPoints.length : Int) ∧
      (Camera.addCalibrationPoint st w).objects
          = st.objects.map (fun o => Object.addCalibrationPoint o w)) := by
  cases hf : Camera.findPointIndex w st.calibrationPoints with
  | some i =>
      have hpts : (Camera.addCalibrationPoint st w).calibrationPoints
          = st.calibrationPoints := by
        simp [Camera.addCalibrationPoint, hf]
      refine ⟨fun hp => hpts ▸ hp, fun _ => ⟨hpts, by simp [Camera.addCalibrationPoint, hf],
        i, rfl, by simp [Camera.addCalibrationPoint, hf],
        Camera.findPointIndex_some_spec w st.calibrationPoints i hf⟩, ?_⟩
      intro hall
      rw [(Camera.findPointIndex_none_iff w st.calibrationPoints).mpr hall] at hf
      exact absurd hf (by simp)
  | none =>
      have hall : ∀ p ∈ st.calibrationPoints, p.world ≠ w :=
        (Camera.findPointIndex_none_iff w st.calibrationPoints).mp hf
      have hpts : (Camera.addCalibrationPoint st w).calibrationPoints
          = st.calibrationPoints ++ [CalibrationPoint.mk0 w] := by
        simp [Camera.addCalibrationPoint, hf]
      refine ⟨?_, ?_, ?_⟩
      · intro hp
        rw [hpts, List.pairwise_append]
        refine ⟨hp, by simp, ?_⟩
        intro a ha b hb
        have hbw : b = CalibrationPoint.mk0 w := by simpa using hb
        subst hbw
        exact hall a ha
      · intro hex
        obtain ⟨p, hp, hpw⟩ := hex
        exact absurd hpw (hall p hp)
      · intro _
        exact ⟨hpts, by simp [Camera.addCalibrationPoint, hf],
          by simp [Camera.addCalibrationPoint, hf]⟩

/-- Witness for C9: on a camera holding one point at the origin (with one
linked object), adding `(1,0,0)` appends and propagates; adding the origin
again appends nothing. -/
theorem Camera.addCalibrationPoint_spec_witness :
    (Camera.addCalibrationPoint onePointCamera ⟨1, 0, 0⟩).calibrationPoints
        = onePointCamera.calibrationPoints ++ [CalibrationPoint.mk0 ⟨1, 0, 0⟩] ∧
    (Camera.addCalibrationPoint onePointCamera ⟨1, 0, 0⟩).objects
        = onePointCamera.objects.map (fun o => Object.addCalibrationPoint o ⟨1, 0, 0⟩) ∧
    (Camera.addCalibrationPoint onePointCamera ⟨0, 0, 0⟩).calibrationPoints
        = onePointCamera.calibrationPoints := by
  have hfresh : ∀ p ∈ onePointCamera.calibrationPoints,
      p.world ≠ (⟨1, 0, 0⟩ : Vec3) := by
    intro p hp
    have hp0 : p = CalibrationPoint.mk0 ⟨0, 0, 0⟩ := by
      simpa [onePointCamera] using hp
    subst hp0
    intro h
    rw [CalibrationPoint.mk0, Vec3.ext_iff] at h
    exact absurd h.1 (by norm_num)
  have hexist : ∃ p ∈ onePointCamera.calibrationPoints,
      p.world = (⟨0, 0, 0⟩ : Vec3) :=
    ⟨CalibrationPoint.mk0 ⟨0, 0, 0⟩, by simp [onePointCamera], rfl⟩
  have hA := Camera.addCalibrationPoint_spec onePointCamera ⟨1, 0, 0⟩
  have hB := Camera.addCalibrationPoint_spec onePointCamera ⟨0, 0, 0⟩
  exact ⟨(hA.2.2 hfresh).1, (hA.2.2 hfresh).2.2, (hB.2.1 hexist).1⟩

/-- The pair-collection loop is filtering by `isSet` followed by pairing each
point with its pixel-space image point. -/
lemma Camera.collectCalibrationPairs_eq (st : CameraState) :
    ∀ l : List CalibrationPoint,
      Camera.collectCalibrationPairs st l
        = (l.filter (fun p => p.isSet)).map
            (fun p => (p.world, Camera.imagePointOf st p)) := by
  intro l
  induction l with
  | nil => simp [Camera.collectCalibrationPairs]
  | cons p rest ih =>
      by_cases h : p.isSet <;> simp [Camera.collectCalibrationPairs, h, ih]

/-- Left fold of running addition equals the sum of the mapped list. -/
lemma foldl_add_map {α : Type} (f : α → ℝ) :
    ∀ (l : List α) (a : ℝ),
      l.foldl (fun acc x => acc + f x) a = a + (l.map f).sum := by
  intro l
  induction l with
  | nil => intro a; simp
  | cons x rest ih =>
      intro a
      simp only [List.foldl_cons, List.map_cons, List.sum_cons, ih]
      ring

/-- **C1.** For every camera state and every 9-parameter vector
`(fov, cx, cy, eye.xyz, euler.xyz)`, the calibration objective
`cameraCalibration_f` returns the mean squared reprojection error over
exactly the calibration points with `isSet = true`: each such point's world
coordinate is projected through the look-at view built from `eye` and the
yaw-pitch-roll-rotated forward/up vectors and through the off-axis
projection for `(fov, cx, cy)`, its z is zeroed, the squared pixel-space
distance to the observed screen point (mapped from `[-1,1]` to pixels as
`(screen+1)/2 · width/height`) is summed, and the sum is divided by the
number of set points; unset points contribute nothing. -/
theorem Camera.cameraCalibration_f_is_mean_reprojection_error
    (st : CameraState) (v : Fin 9 → ℝ) :
    Camera.cameraCalibration_f st v = Camera.meanSquaredReprojectionError st v := by
  simp only [Camera.cameraCalibration_f, Camera.meanSquaredReprojectionError,
    Camera.collectCalibrationPairs_eq, foldl_add_map, zero_add, List.map_map,
    List.length_map]
  rfl

/-- **C3 (code bug).** Evaluation of `removeCalibrationPoint` in
nearest-screen-point mode at the failing input: `setPointCamera` holds a
single calibration point with `isSet = true` whose projection is finite and
exact — world `(2,0,0)` seen from eye `(0,0,0)` towards `(1,0,0)` with a 90°
centered frustum over a 2×2 viewport projects through clip `w = 2` to the
pixel `(1,1)` — and the query point is that very pixel, so the point's
screen distance is `0 < DBL_MAX` and the arg-min loop selects it.  The claim
(and spec §4.4/§8) requires that a set point is never removed when
`unlessSetFlag = true`, in both addressing modes; the 2-component branch of
the code (`part_002` l.1260-1295) never reads `unlessSet`, so the set point
is removed: the resulting calibration-point list is empty. -/
theorem Camera.removeCalibrationPoint2D_removes_set_point :
    (∀ p ∈ setPointCamera.calibrationPoints, p.isSet = true) ∧
    Camera.screenDistanceTo setPointCamera ⟨1, 1⟩ ⟨⟨2, 0, 0⟩, ⟨0, 0⟩, true⟩ = 0 ∧
    (Camera.removeCalibrationPoint2D setPointCamera ⟨1, 1⟩ true).calibrationPoints
      = [] := by
  have hM : lookAtM setPointCamera.eye setPointCamera.target setPointCamera.up
      = (⟨⟨0, 0, -1, 0⟩, ⟨-1, 0, 0, 0⟩, ⟨0, 1, 0, 0⟩, ⟨0, 0, 0, 1⟩⟩ : Mat4) := by
    show lookAtM ⟨0, 0, 0⟩ ⟨1, 0, 0⟩ ⟨0, 0, 1⟩ = _
    simp only [lookAtM, sub3, cross3, dot3, normalize3, length3]
    norm_num
  have ht : Real.tan ((90 : ℝ) * Real.pi / 360) = 1 := by
    rw [show (90 : ℝ) * Real.pi / 360 = Real.pi / 4 by ring]
    exact Real.tan_pi_div_four
  have hP : Camera.computeProjectionMatrix setPointCamera setPointCamera.fov
      setPointCamera.cx setPointCamera.cy
      = (⟨⟨1, 0, 0, 0⟩, ⟨0, 1, 0, 0⟩, ⟨0, 0, -2, -1⟩, ⟨0, 0, -3, 0⟩⟩ : Mat4) := by
    show Camera.computeProjectionMatrix setPointCamera 90 0.5 0.5 = _
    simp only [Camera.computeProjectionMatrix, Camera.projectionBounds,
      frustumM, setPointCamera, ht]
    norm_num
  have hdist : Camera.screenDistanceTo setPointCamera ⟨1, 1⟩
      ⟨⟨2, 0, 0⟩, ⟨0, 0⟩, true⟩ = 0 := by
    simp only [Camera.screenDistanceTo]
    rw [hM, hP]
    norm_num [projectPoint, mulVec, setPointCamera]
  have hpos : (0 : ℝ) < dblMax := by
    rw [dblMax]
    norm_num
  have hnear : Camera.nearestPointIndex
      (Camera.screenDistanceTo setPointCamera ⟨1, 1⟩)
      setPointCamera.calibrationPoints 0 (-1) dblMax
      = (0, Camera.screenDistanceTo setPointCamera ⟨1, 1⟩
          ⟨⟨2, 0, 0⟩, ⟨0, 0⟩, true⟩) := by
    show Camera.nearestPointIndex _ [⟨⟨2, 0, 0⟩, ⟨0, 0⟩, true⟩] 0 (-1) dblMax = _
    simp only [Camera.nearestPointIndex]
    rw [if_pos (by rw [hdist]; exact hpos)]
    rfl
  refine ⟨?_, hdist, ?_⟩
  · intro p hp
    have hp0 : p = (⟨⟨2, 0, 0⟩, ⟨0, 0⟩, true⟩ : CalibrationPoint) := by
      simpa [setPointCamera] using hp
    subst hp0
    rfl
  · simp only [Camera.removeCalibrationPoint2D, hnear]
    rw [if_neg (by decide : ¬ (0 : Int) = -1)]
    simp [setPointCamera]

/-- **C5 (code bug).** Evaluation of the blending-map accumulation at the
failing input: a 2-column × 3-row map, camera contribution 5 in every cell,
shared map initially 0.  The claim requires every cell (row `y`, column `x`),
i.e. linear index `y*width + x`, to grow by exactly the camera's value at
that cell — here every cell should end at 5.  The loop of `part_002`
l.583-585 instead addresses `y + width * x` on both sides: the cell at
linear index 5 (row 2, column 1) is never touched and stays 0, while the
cell at linear index 2 (row 1, column 0) is visited twice (as `(y,x) = (0,1)`
and `(2,0)`) and ends at 10; index 3 is visited once and ends at 5. -/
theorem accumulateBlendingMap_transposed_indexing :
    accumulateBlendingMap 2 3 (fun _ => 5) (fun _ => 0) 5 = 0 ∧
    accumulateBlendingMap 2 3 (fun _ => 5) (fun _ => 0) 2 = 10 ∧
    accumulateBlendingMap 2 3 (fun _ => 5) (fun _ => 0) 3 = 5 := by
  refine ⟨by decide, by decide, by decide⟩

/-- Counterexample for C4 as stated: on the width-10 row with set cells at
0, 5 and 9 holding 100, 50 and 200, the claim's interpolation for cell 1 —
between the bracketing set cells 0 (`lastKnown = 100`) and 5
(`nextKnown = 50`, `holeEnd = 5`) — yields `100 + (50-100)·1/5 = 90`
(`bracketFillRowSpec`, and directly `fillValue 100 50 1 5`), but the code
(`fillHolesRow`) assigns 111: its inner scan has no `break`, so `nextKnown`
and `holeEnd` come from the *last* set cell of the row (200 at position
9). -/
theorem fillHolesRow_bracket_counterexample :
    fillHolesRow threeSet threeCam 10 1 = 111 ∧
    bracketFillRowSpec threeSet threeCam 10 1 = 90 ∧
    fillValue (threeCam 0) (threeCam 5) (1 - 0) (5 - 0) = 90 ∧
    fillHolesRow threeSet threeCam 10 1 ≠ bracketFillRowSpec threeSet threeCam 10 1 := by
  refine ⟨by decide, by decide, by decide, by decide⟩

/-- **C4 (amended).** For every row of the per-camera blend weight map, the
hole-filling pass linearly interpolates each run of unset cells lying
strictly between two set cells, assigning cell `x` the value
`lastKnown + (nextKnown - lastKnown) · (x - holeStart) / (holeEnd - holeStart)`
(C `int` arithmetic), where `lastKnown`/`holeStart` belong to the nearest set
cell before the run but `nextKnown`/`holeEnd` belong to the **last set cell
of the row** (the inner scan has no `break`), not the nearest bracketing set
cell; unset cells without a set cell on both sides keep their value (0 in the
accumulated map).  In particular a row with set cells only at positions 0 and
9 holding 100 and 200 — where the last set cell *is* the bracketing cell —
yields the strictly monotonically increasing ramp `100 + 100·x/9` at
positions 1..8. -/
theorem fillHolesRow_interpolation :
    (∀ (set : Nat → Bool) (cam : Nat → Nat) (W x : Nat), x < W →
      fillHolesRow set cam W x = fillRowSpec set cam W x) ∧
    (∀ x, 0 < x → x < 9 → fillHolesRow rampSet rampCam 10 x = 100 + 100 * x / 9) ∧
    (∀ x, x < 9 →
      fillHolesRow rampSet rampCam 10 x < fillHolesRow rampSet rampCam 10 (x + 1)) := by
  refine ⟨fillHolesRow_eq_spec, ?_, ?_⟩
  · intro x h1 h2
    interval_cases x <;> decide
  · intro x h
    interval_cases x <;> decide

/-- Witness for C4: at cell 3 of the example ramp row the code matches the
declarative description, the ramp value is `100 + 100·3/9 = 133`, and the
ramp increases towards cell 4. -/
theorem fillHolesRow_interpolation_witness :
    (3 < 10 ∧ fillHolesRow rampSet rampCam 10 3 = fillRowSpec rampSet rampCam 10 3) ∧
    (0 < 3 ∧ 3 < 9 ∧ fillHolesRow rampSet rampCam 10 3 = 100 + 100 * 3 / 9) ∧
    (3 < 9 ∧ fillHolesRow rampSet rampCam 10 3 < fillHolesRow rampSet rampCam 10 4) :=
  ⟨⟨by decide, fillHolesRow_interpolation.1 rampSet rampCam 10 3 (by decide)⟩,
   ⟨by decide, by decide, fillHolesRow_interpolation.2.1 3 (by decide) (by decide)⟩,
   ⟨by decide, fillHolesRow_interpolation.2.2 3 (by decide)⟩⟩

/-- Counterexample for C6 as stated: the interleaved frame-group
`render(w1); swapBuffers(w1); render(w2); swapBuffers(w2)` — allowed by the
claim's premise that each window "executes render() and then swapBuffers()" —
resets the counter in *each* window's `render` (`part_001` l.377, once per
window, not once per frame-group), so **both** swaps observe pre-increment
value 0 and both perform the real presentation swap. -/
theorem Window.swapBuffers_interleaved_counterexample :
    ((swapRecords 0 [WindowEvent.render 1, WindowEvent.swap 1,
        WindowEvent.render 2, WindowEvent.swap 2]).map (fun r => r.observed))
      = [0, 0] ∧
    ((swapRecords 0 [WindowEvent.render 1, WindowEvent.swap 1,
        WindowEvent.render 2, WindowEvent.swap 2]).filter
          (fun r => r.presented)).length = 2 := by
  refine ⟨by decide, by decide⟩

/-- **C6 (amended).** In a frame group where all `N ≥ 1` `render()` calls
precede the `N` `swapBuffers()` calls (the order the render loop produces),
the counter — reset to 0 by every `render`, whatever its previous value —
makes the `k`-th swap observe pre-increment value `k - 1`: exactly one swap
(the first) observes 0, blits to the back buffer and performs the real
presentation swap, while every other swap blits to the front buffer and does
not present. -/
theorem Window.swapBuffers_exactly_one_presenter
    (c0 : Nat) (rs ss : List Nat) (hrs : rs ≠ []) (hlen : ss.length = rs.length) :
    (runWindowEvents c0 (rs.map WindowEvent.render)).1 = 0 ∧
    ((swapRecords c0 (rs.map WindowEvent.render ++ ss.map WindowEvent.swap)).map
        (fun r => r.observed)) = List.range rs.length ∧
    ((swapRecords c0 (rs.map WindowEvent.render ++ ss.map WindowEvent.swap)).filter
        (fun r => decide (r.observed = 0))).length = 1 ∧
    ((swapRecords c0 (rs.map WindowEvent.render ++ ss.map WindowEvent.swap)).filter
        (fun r => r.presented)).length = 1 ∧
    (∀ r ∈ swapRecords c0 (rs.map WindowEvent.render ++ ss.map WindowEvent.swap),
      r.presented = decide (r.observed = 0) ∧ r.blitToBack = decide (r.observed = 0)) := by
  have hrend := runWindowEvents_renders rs c0
  have hc0 : (runWindowEvents c0 (rs.map WindowEvent.render)).1 = 0 := by
    rw [hrend.2, if_neg hrs]
  have hrecs : swapRecords c0 (rs.map WindowEvent.render ++ ss.map WindowEvent.swap)
      = (runWindowEvents 0 (ss.map WindowEvent.swap)).2 := by
    rw [swapRecords, runWindowEvents_append]
    rw [hc0, hrend.1]
    simp
  have hobs : ((runWindowEvents 0 (ss.map WindowEvent.swap)).2).map
      (fun r => r.observed) = List.range ss.length := by
    rw [(runWindowEvents_swaps ss 0).1, List.range_eq_range']
  have hflags := runWindowEvents_swaps_flags ss 0
  have hN : ∃ n, ss.length = n + 1 := by
    refine ⟨ss.length - 1, ?_⟩
    have : ss.length = rs.length := hlen
    cases hss : ss.length with
    | zero =>
        rw [hss] at this
        exact absurd (List.length_eq_zero.mp this.symm) hrs
    | succ n => omega
  have hcount : ((runWindowEvents 0 (ss.map WindowEvent.swap)).2.filter
      (fun r => decide (r.observed = 0))).length = 1 := by
    have h1 : ((runWindowEvents 0 (ss.map WindowEvent.swap)).2.filter
        (fun r => decide (r.observed = 0))).length
        = (((runWindowEvents 0 (ss.map WindowEvent.swap)).2.map
            (fun r => r.observed)).filter (fun o => decide (o = 0))).length := by
      rw [List.filter_map, List.length_map]
      rfl
    rw [h1, hobs]
    obtain ⟨n, hn⟩ := hN
    rw [hn, List.range_eq_range', List.range'_succ]
    have h2 : (List.range' 1 n).filter (fun o => decide (o = 0)) = [] := by
      rw [List.filter_eq_nil_iff]
      intro a ha
      have := List.mem_range'.mp ha
      simp
      omega
    simp [h2]
  refine ⟨hc0, by rw [hrecs, hobs, hlen], by rw [hrecs]; exact hcount, ?_, ?_⟩
  · rw [hrecs]
    have hcong : ((runWindowEvents 0 (ss.map WindowEvent.swap)).2.filter
        (fun r => r.presented))
        = ((runWindowEvents 0 (ss.map WindowEvent.swap)).2.filter
            (fun r => decide (r.observed = 0))) := by
      apply List.filter_congr
      intro r hr
      exact (hflags r hr).1
    rw [hcong]
    exact hcount
  · intro r hr
    rw [hrecs] at hr
    exact hflags r hr

/-- Witness for C6: a frame group of five windows rendering (from a stale
counter value 7) and then swapping produces exactly one presentation swap. -/
theorem Window.swapBuffers_exactly_one_presenter_witness :
    ([10, 20, 30, 40, 50] : List Nat) ≠ [] ∧
    ([50, 40, 30, 20, 10] : List Nat).length = ([10, 20, 30, 40, 50] : List Nat).length ∧
    ((swapRecords 7 (([10, 20, 30, 40, 50] : List Nat).map WindowEvent.render
        ++ ([50, 40, 30, 20, 10] : List Nat).map WindowEvent.swap)).filter
          (fun r => r.presented)).length = 1 :=
  ⟨by decide, by decide,
    (Window.swapBuffers_exactly_one_presenter 7 [10, 20, 30, 40, 50]
      [50, 40, 30, 20, 10] (by decide) (by decide)).2.2.2.1⟩

end Splash
